import Mathlib

/-!
Shallow embedding of the filtering core of the internship-aggregator
frontend (`web/internship-app-frontend/src/app/page.tsx`, symbol
`filteredInternships`) and of the derived-options helper
(`web/internship-app-frontend/src/app/components/FilterPanel.tsx`).

JavaScript strings are modelled by Lean `String`; optional posting fields
(`salary?`, `remote?`, `job_type?`, ...) by `Option`.  JavaScript
`String.prototype.includes` is modelled by a structurally recursive
substring test over the character list, `toLowerCase` by a character-wise
lowering, and `Array.prototype.sort()` on strings by insertion sort with
the lexicographic code-point order (JS compares by UTF-16 code unit,
which agrees with code points on the ASCII data handled here).
-/

namespace InternshipApp

/-- The `Internship` record of `page.tsx` (fields `requirements`, `salary`,
`duration`, `remote` and `job_type` are optional in the TypeScript
interface and become `Option` here). -/
structure Internship where
  id : String
  title : String
  company : String
  location : String
  description : String
  requirements : Option String := none
  salary : Option String := none
  duration : Option String := none
  posted_date : String
  source_url : String
  source : String
  remote : Option Bool := none
  job_type : Option String := none
  deriving Repr, DecidableEq

/-- The `FilterState` record of `page.tsx` / `FilterPanel.tsx`. -/
structure FilterState where
  searchTerm : String
  location : String
  remoteOnly : Bool
  salaryRange : String
  company : String
  jobType : String
  deriving Repr, DecidableEq

/-- Model of JavaScript `toLowerCase()`: lower each character. -/
def lowerStr (s : String) : String := ⟨s.data.map Char.toLower⟩

/-- `infixOfB pat l` is `true` iff `pat` occurs as a contiguous run inside
`l`; models JavaScript `String.prototype.includes` at the character-list
level. -/
def infixOfB (pat : List Char) : List Char → Bool
  | [] => List.isPrefixOf pat []
  | a :: as => List.isPrefixOf pat (a :: as) || infixOfB pat as

/-- Model of JavaScript `s.includes(pat)`. -/
def jsIncludes (s pat : String) : Bool := infixOfB pat.data s.data

/-- The search-term predicate of `filteredInternships` (page.tsx lines
94-102): the lowered term must occur in the lowered title, description,
company or location. -/
def matchesSearch (searchTerm : String) (internship : Internship) : Bool :=
  let searchLower := lowerStr searchTerm
  jsIncludes (lowerStr internship.title) searchLower ||
  jsIncludes (lowerStr internship.description) searchLower ||
  jsIncludes (lowerStr internship.company) searchLower ||
  jsIncludes (lowerStr internship.location) searchLower

/-- The salary-range `switch` of `filteredInternships` (page.tsx lines
119-144).  `salary` is `internship.salary?.toLowerCase() || ''`; an
unrecognised (non-empty) bucket value falls through the `switch` and keeps
the posting, hence the final `true`. -/
def salaryRangeMatches (salaryRange : String) (salaryField : Option String) : Bool :=
  let salary := (salaryField.map lowerStr).getD ""
  if salaryRange = "paid" then
    jsIncludes salary "paid" || jsIncludes salary "$" ||
    jsIncludes salary "hourly" || jsIncludes salary "competitive"
  else if salaryRange = "unpaid" then
    jsIncludes salary "unpaid" || jsIncludes salary "volunteer"
  else if salaryRange = "competitive" then
    jsIncludes salary "competitive"
  else if salaryRange = "hourly" then
    jsIncludes salary "hourly" || jsIncludes salary "$"
  else
    true

/-- The body of the arrow function passed to `internships.filter` in
`filteredInternships` (page.tsx lines 92-152).  Each early
`return false` of the source becomes one conjunct `neutral || predicate`:
a truthy (non-empty / true) criteria field activates its predicate. -/
def matchesFilters (filters : FilterState) (internship : Internship) : Bool :=
  (decide (filters.searchTerm = "") || matchesSearch filters.searchTerm internship) &&
  (decide (filters.location = "") || decide (internship.location = filters.location)) &&
  (decide (filters.company = "") || decide (internship.company = filters.company)) &&
  (!filters.remoteOnly || decide (internship.remote = some true)) &&
  (decide (filters.salaryRange = "") || salaryRangeMatches filters.salaryRange internship.salary) &&
  (decide (filters.jobType = "") || decide (internship.job_type = some filters.jobType))

/-- The filter engine `filteredInternships` of `page.tsx`. -/
def filteredInternships (internships : List Internship) (filters : FilterState) : List Internship :=
  internships.filter (fun internship => matchesFilters filters internship)

/-- The all-neutral criteria: the initial `useState` value of `filters`
in `page.tsx` and the object produced by `clearFilters` in
`FilterPanel.tsx`. -/
def neutralFilters : FilterState :=
  { searchTerm := "", location := "", remoteOnly := false,
    salaryRange := "", company := "", jobType := "" }

/-- Modelled from the spec: the salary-bucket classification rules of
spec §4 ("Salary-bucket rules"), stated over the already lower-cased
salary text; "a currency symbol" is the dollar sign appearing in the
spec's scenarios.  Used only to compare the source's `switch` against the
spec's wording; a bucket outside the fixed enumeration matches nothing
under the spec reading. -/
def bucketSpecMatches (bucket : String) (salaryLower : String) : Bool :=
  if bucket = "paid" then
    jsIncludes salaryLower "paid" || jsIncludes salaryLower "$" ||
    jsIncludes salaryLower "hourly" || jsIncludes salaryLower "competitive"
  else if bucket = "unpaid" then
    jsIncludes salaryLower "unpaid" || jsIncludes salaryLower "volunteer"
  else if bucket = "competitive" then
    jsIncludes salaryLower "competitive"
  else if bucket = "hourly" then
    jsIncludes salaryLower "hourly" || jsIncludes salaryLower "$"
  else
    false

/-- Lexicographic order on character lists, `true` when the first list
compares less-or-equal; models the default JavaScript string comparison
used by `Array.prototype.sort()`. -/
def lexLe : List Char → List Char → Bool
  | [], _ => true
  | _ :: _, [] => false
  | a :: as, b :: bs => if a < b then true else if a = b then lexLe as bs else false

/-- String comparison used to model the default `sort()`. -/
def strLe (a b : String) : Bool := lexLe a.data b.data

/-- Ascending insertion sort on strings; models `Array.prototype.sort()`
(on the duplicate-free lists produced below the result agrees with any
stable sort). -/
def sortStrings (l : List String) : List String :=
  l.insertionSort (fun a b => strLe a b = true)

/-- Helper for `dedupFirst`: drop elements already in `seen`, keeping
first occurrences. -/
def dedupFirstAux : List String → List String → List String
  | _, [] => []
  | seen, x :: xs =>
    if x ∈ seen then dedupFirstAux seen xs else x :: dedupFirstAux (x :: seen) xs

/-- Model of `Array.from(new Set(l))`: the distinct elements of `l` in
first-occurrence order. -/
def dedupFirst (l : List String) : List String := dedupFirstAux [] l

/-- `uniqueLocations` of `FilterPanel.tsx` (lines 24-26):
`Array.from(new Set(internships.map(i => i.location))).sort()`. -/
def uniqueLocations (internships : List Internship) : List String :=
  sortStrings (dedupFirst (internships.map (fun internship => internship.location)))

/-- `uniqueCompanies` of `FilterPanel.tsx` (lines 28-30). -/
def uniqueCompanies (internships : List Internship) : List String :=
  sortStrings (dedupFirst (internships.map (fun internship => internship.company)))

/-- `uniqueJobTypes` of `FilterPanel.tsx` (lines 32-34):
`Array.from(new Set(internships.map(i => i.job_type).filter(Boolean))).sort()`;
`filter(Boolean)` drops both `undefined` (modelled by `filterMap id`) and
the empty string. -/
def uniqueJobTypes (internships : List Internship) : List String :=
  sortStrings (dedupFirst
    (((internships.map (fun internship => internship.job_type)).filterMap id).filter
      (fun t => decide (t ≠ ""))))

/-- The scenario posting of spec §8 (required fields not listed there are
given benign values). -/
def posting1 : Internship :=
  { id := "1", title := "SWE Intern", company := "Acme", location := "Remote",
    description := "Python backend", salary := some "$25/hr",
    posted_date := "2025-01-01", source_url := "https:u1", source := "mock",
    remote := some true, job_type := some "Software Engineering" }

/-- A posting with salary "Unpaid" (spec §8 salary scenario). -/
def postingUnpaid : Internship :=
  { id := "2", title := "Research Intern", company := "Lab", location := "NYC",
    description := "Research", salary := some "Unpaid",
    posted_date := "2025-01-02", source_url := "https:u2", source := "mock" }

/-- A posting with no `remote` field set (spec §8 remote scenario). -/
def postingNoRemote : Internship :=
  { id := "3", title := "Ops Intern", company := "Acme", location := "NYC",
    description := "Ops", posted_date := "2025-01-03",
    source_url := "https:u3", source := "mock" }

/-- A posting whose location is the empty string. -/
def postingEmptyLoc : Internship :=
  { id := "4", title := "Intern", company := "Acme", location := "",
    description := "d", posted_date := "2025-01-04",
    source_url := "https:u4", source := "mock" }

/-- A posting located in NYC (derived-options scenario). -/
def postingNYC1 : Internship :=
  { id := "5", title := "A", company := "CompA", location := "NYC",
    description := "d", posted_date := "2025-01-05",
    source_url := "https:u5", source := "mock" }

/-- A second NYC posting (derived-options scenario). -/
def postingNYC2 : Internship :=
  { id := "6", title := "B", company := "CompB", location := "NYC",
    description := "d", posted_date := "2025-01-06",
    source_url := "https:u6", source := "mock" }

/-! ### Helper lemmas -/

theorem infixOfB_iff (pat l : List Char) : infixOfB pat l = true ↔ pat <:+: l := by
  induction l with
  | nil => simp [infixOfB, List.isPrefixOf_iff_prefix]
  | cons a as ih =>
    simp [infixOfB, List.isPrefixOf_iff_prefix, ih, List.infix_cons_iff]

theorem mem_dedupFirstAux (seen l : List String) (a : String) :
    a ∈ dedupFirstAux seen l ↔ a ∈ l ∧ a ∉ seen := by
  induction l generalizing seen with
  | nil => simp [dedupFirstAux]
  | cons x xs ih =>
    by_cases hx : x ∈ seen
    · rw [dedupFirstAux, if_pos hx, ih]
      constructor
      · rintro ⟨h1, h2⟩; exact ⟨List.mem_cons_of_mem x h1, h2⟩
      · rintro ⟨h1, h2⟩
        rcases List.mem_cons.mp h1 with rfl | h1
        · exact absurd hx h2
        · exact ⟨h1, h2⟩
    · rw [dedupFirstAux, if_neg hx]
      constructor
      · intro h
        rcases List.mem_cons.mp h with rfl | h
        · exact ⟨List.mem_cons_self a xs, hx⟩
        · have := (ih (x :: seen)).mp h
          exact ⟨List.mem_cons_of_mem x this.1,
            fun hs => this.2 (List.mem_cons_of_mem x hs)⟩
      · rintro ⟨h1, h2⟩
        by_cases hax : a = x
        · exact hax ▸ List.mem_cons_self x _
        · rcases List.mem_cons.mp h1 with rfl | h1
          · exact absurd rfl hax
          · refine List.mem_cons_of_mem x ((ih (x :: seen)).mpr ⟨h1, fun hs => ?_⟩)
            rcases List.mem_cons.mp hs with rfl | hs
            · exact hax rfl
            · exact h2 hs

theorem mem_dedupFirst (l : List String) (a : String) :
    a ∈ dedupFirst l ↔ a ∈ l := by
  simp [dedupFirst, mem_dedupFirstAux]

theorem nodup_dedupFirstAux (seen l : List String) : (dedupFirstAux seen l).Nodup := by
  induction l generalizing seen with
  | nil => simp [dedupFirstAux]
  | cons x xs ih =>
    by_cases hx : x ∈ seen
    · rw [dedupFirstAux, if_pos hx]; exact ih seen
    · rw [dedupFirstAux, if_neg hx]
      refine List.nodup_cons.mpr ⟨fun hmem => ?_, ih (x :: seen)⟩
      exact ((mem_dedupFirstAux _ _ _).mp hmem).2 (List.mem_cons_self x seen)

theorem nodup_dedupFirst (l : List String) : (dedupFirst l).Nodup :=
  nodup_dedupFirstAux [] l

theorem lexLe_trans :
    ∀ a b c : List Char, lexLe a b = true → lexLe b c = true → lexLe a c = true := by
  intro a
  induction a with
  | nil => intro b c _ _; rfl
  | cons x xs ih =>
    intro b c h1 h2
    cases b with
    | nil => simp [lexLe] at h1
    | cons y ys =>
      cases c with
      | nil => simp [lexLe] at h2
      | cons z zs =>
        rw [lexLe] at h1 h2 ⊢
        by_cases hxy : x < y
        · by_cases hyz : y < z
          · rw [if_pos (lt_trans hxy hyz)]
          · by_cases hyz2 : y = z
            · subst hyz2; rw [if_pos hxy]
            · rw [if_neg hyz, if_neg hyz2] at h2; exact absurd h2 (by simp)
        · by_cases hxy2 : x = y
          · subst hxy2
            rw [if_neg hxy, if_pos rfl] at h1
            by_cases hxz : x < z
            · rw [if_pos hxz]
            · by_cases hxz2 : x = z
              · subst hxz2
                rw [if_neg hxz, if_pos rfl] at h2 ⊢
                exact ih ys zs h1 h2
              · rw [if_neg hxz, if_neg hxz2] at h2; exact absurd h2 (by simp)
          · rw [if_neg hxy, if_neg hxy2] at h1; exact absurd h1 (by simp)

theorem lexLe_total : ∀ a b : List Char, lexLe a b = true ∨ lexLe b a = true := by
  intro a
  induction a with
  | nil => intro b; exact Or.inl rfl
  | cons x xs ih =>
    intro b
    cases b with
    | nil => exact Or.inr rfl
    | cons y ys =>
      rcases lt_trichotomy x y with h | h | h
      · left; rw [lexLe, if_pos h]
      · subst h
        rcases ih ys with h | h
        · left; rw [lexLe, if_neg (lt_irrefl x), if_pos rfl]; exact h
        · right; rw [lexLe, if_neg (lt_irrefl x), if_pos rfl]; exact h
      · right; rw [lexLe, if_pos h]

instance : IsTrans String (fun a b => strLe a b = true) :=
  ⟨fun a b c h1 h2 => lexLe_trans a.data b.data c.data h1 h2⟩

instance : IsTotal String (fun a b => strLe a b = true) :=
  ⟨fun a b => lexLe_total a.data b.data⟩

theorem mem_sortStrings (l : List String) (a : String) :
    a ∈ sortStrings l ↔ a ∈ l :=
  (List.perm_insertionSort (fun a b => strLe a b = true) l).mem_iff

theorem nodup_sortStrings (l : List String) (h : l.Nodup) : (sortStrings l).Nodup :=
  (List.perm_insertionSort (fun a b => strLe a b = true) l).symm.nodup h

theorem sorted_sortStrings (l : List String) :
    List.Sorted (fun a b => strLe a b = true) (sortStrings l) :=
  List.sorted_insertionSort (fun a b => strLe a b = true) l

theorem mem_filteredInternships (ps : List Internship) (c : FilterState) (p : Internship) :
    p ∈ filteredInternships ps c ↔ p ∈ ps ∧ matchesFilters c p = true := by
  simp [filteredInternships, List.mem_filter]

theorem matchesFilters_eq_true_iff (c : FilterState) (p : Internship) :
    matchesFilters c p = true ↔
      (c.searchTerm = "" ∨ matchesSearch c.searchTerm p = true) ∧
      (c.location = "" ∨ p.location = c.location) ∧
      (c.company = "" ∨ p.company = c.company) ∧
      (c.remoteOnly = false ∨ p.remote = some true) ∧
      (c.salaryRange = "" ∨ salaryRangeMatches c.salaryRange p.salary = true) ∧
      (c.jobType = "" ∨ p.job_type = some c.jobType) := by
  simp [matchesFilters, Bool.and_eq_true, Bool.or_eq_true, decide_eq_true_eq,
    Bool.not_eq_true', and_assoc]

/-! ### Claim theorems -/

/-- C1: conjunction correctness of the filter.  If a posting `p` survives
`filter([p], c)` then it independently satisfies every active predicate of
`c` (search-term, location, company, remote-only, salary-bucket,
job-type); and with `remoteOnly` true a posting whose `remote` field is
absent or `false` is excluded. -/
theorem filter_conjunction_correct (p : Internship) (c : FilterState) :
    (p ∈ filteredInternships [p] c →
      (c.searchTerm ≠ "" → matchesSearch c.searchTerm p = true) ∧
      (c.location ≠ "" → p.location = c.location) ∧
      (c.company ≠ "" → p.company = c.company) ∧
      (c.remoteOnly = true → p.remote = some true) ∧
      (c.salaryRange ≠ "" → salaryRangeMatches c.salaryRange p.salary = true) ∧
      (c.jobType ≠ "" → p.job_type = some c.jobType)) ∧
    (c.remoteOnly = true → p.remote ≠ some true → p ∉ filteredInternships [p] c) := by
  constructor
  · intro h
    obtain ⟨hs, hl, hc, hr, hsal, hj⟩ :=
      (matchesFilters_eq_true_iff c p).mp ((mem_filteredInternships [p] c p).mp h).2
    refine ⟨fun hne => hs.resolve_left hne, fun hne => hl.resolve_left hne,
      fun hne => hc.resolve_left hne, fun hro => ?_,
      fun hne => hsal.resolve_left hne, fun hne => hj.resolve_left hne⟩
    rcases hr with h' | h'
    · rw [hro] at h'; exact absurd h' (by decide)
    · exact h'
  · intro hro hnr hmem
    obtain ⟨_, _, _, hr, _, _⟩ :=
      (matchesFilters_eq_true_iff c p).mp ((mem_filteredInternships [p] c p).mp hmem).2
    rcases hr with h' | h'
    · rw [hro] at h'; exact absurd h' (by decide)
    · exact hnr h'

/-- C1 witness: the remote-only criteria excludes `postingNoRemote` (whose
`remote` field is absent), and membership under a location criterion
forces the location to match. -/
theorem filter_conjunction_correct_witness :
    postingNoRemote ∉
      filteredInternships [postingNoRemote] { neutralFilters with remoteOnly := true } ∧
    posting1.location = "Remote" :=
  ⟨(filter_conjunction_correct postingNoRemote
      { neutralFilters with remoteOnly := true }).2 rfl (by decide),
   ((filter_conjunction_correct posting1
      { neutralFilters with location := "Remote" }).1 (by decide)).2.1 (by decide)⟩

/-- C2: salary-bucket predicate semantics.  For each of the four buckets
the source's `switch` agrees with the spec's bucket rules evaluated over
the lower-cased salary (absent salary behaving as the empty string), an
absent salary fails each of the four buckets, and the `unpaid` bucket
excludes the "$25/hr" posting while keeping the "Unpaid" one. -/
theorem salary_bucket_semantics :
    (∀ (salaryRange : String) (salaryField : Option String),
      (salaryRange = "paid" ∨ salaryRange = "unpaid" ∨
       salaryRange = "competitive" ∨ salaryRange = "hourly") →
      salaryRangeMatches salaryRange salaryField
        = bucketSpecMatches salaryRange (lowerStr (salaryField.getD ""))) ∧
    (∀ salaryRange : String,
      (salaryRange = "paid" ∨ salaryRange = "unpaid" ∨
       salaryRange = "competitive" ∨ salaryRange = "hourly") →
      salaryRangeMatches salaryRange none = false) ∧
    filteredInternships [posting1] { neutralFilters with salaryRange := "unpaid" } = [] ∧
    filteredInternships [postingUnpaid] { neutralFilters with salaryRange := "unpaid" }
      = [postingUnpaid] := by
  refine ⟨?_, ?_, by decide, by decide⟩
  · rintro sr sf (rfl | rfl | rfl | rfl) <;> cases sf <;> rfl
  · rintro sr (rfl | rfl | rfl | rfl) <;> decide

/-- C2 witness: the bucket agreement and the missing-salary failure,
instantiated at the `unpaid` bucket and the "$25/hr" salary. -/
theorem salary_bucket_semantics_witness :
    salaryRangeMatches "unpaid" (some "$25/hr")
      = bucketSpecMatches "unpaid" (lowerStr "$25/hr") ∧
    salaryRangeMatches "unpaid" none = false :=
  ⟨salary_bucket_semantics.1 "unpaid" (some "$25/hr") (Or.inr (Or.inl rfl)),
   salary_bucket_semantics.2.1 "unpaid" (Or.inr (Or.inl rfl))⟩

/-- C3 counterexample: the location option list keeps empty values.  For a
posting whose location is the empty string the claim demands the empty
option list, but the code (which applies `filter(Boolean)` only to
job-types) returns `[""]`. -/
theorem derived_options_counterexample :
    uniqueLocations [postingEmptyLoc] = [""] ∧
    uniqueLocations [postingEmptyLoc] ≠ [] := by
  decide

/-- C3 amended: the location and company option lists hold exactly the
distinct observed values (empty strings included), and only the job-type
list drops absent and empty values; each list is duplicate-free and in
ascending lexical order, and the `["NYC","Remote","NYC"]` scenario yields
`["NYC","Remote"]`. -/
theorem derived_options_amended :
    (∀ (ps : List Internship) (s : String),
      (s ∈ uniqueLocations ps ↔ s ∈ ps.map (fun p => p.location)) ∧
      (s ∈ uniqueCompanies ps ↔ s ∈ ps.map (fun p => p.company)) ∧
      (s ∈ uniqueJobTypes ps ↔ some s ∈ ps.map (fun p => p.job_type) ∧ s ≠ "")) ∧
    (∀ ps : List Internship,
      (uniqueLocations ps).Nodup ∧ (uniqueCompanies ps).Nodup ∧
      (uniqueJobTypes ps).Nodup ∧
      List.Sorted (fun a b => strLe a b = true) (uniqueLocations ps) ∧
      List.Sorted (fun a b => strLe a b = true) (uniqueCompanies ps) ∧
      List.Sorted (fun a b => strLe a b = true) (uniqueJobTypes ps)) ∧
    uniqueLocations [postingNYC1, posting1, postingNYC2] = ["NYC", "Remote"] := by
  refine ⟨fun ps s => ⟨?_, ?_, ?_⟩, fun ps => ?_, by decide⟩
  · simp [uniqueLocations, mem_sortStrings, mem_dedupFirst]
  · simp [uniqueCompanies, mem_sortStrings, mem_dedupFirst]
  · simp [uniqueJobTypes, mem_sortStrings, mem_dedupFirst, List.mem_filter,
      List.mem_filterMap]
  · exact ⟨nodup_sortStrings _ (nodup_dedupFirst _),
      nodup_sortStrings _ (nodup_dedupFirst _),
      nodup_sortStrings _ (nodup_dedupFirst _),
      sorted_sortStrings _, sorted_sortStrings _, sorted_sortStrings _⟩

/-- C3 witness: the amended membership and duplicate-freeness at the
scenario input. -/
theorem derived_options_amended_witness :
    ("NYC" ∈ uniqueLocations [postingNYC1, posting1, postingNYC2]) ∧
    (uniqueJobTypes [posting1]).Nodup :=
  ⟨(derived_options_amended.1 [postingNYC1, posting1, postingNYC2] "NYC").1.mpr
      (by decide),
   (derived_options_amended.2.1 [posting1]).2.2.1⟩

/-- C4: identity filter.  With every criteria field at its neutral value
the filter returns the input list unchanged, in the original order. -/
theorem filter_identity (ps : List Internship) :
    filteredInternships ps neutralFilters = ps :=
  List.filter_eq_self.mpr (fun _ _ => rfl)

/-- C5: search-term predicate.  For a non-empty term (and otherwise
neutral criteria) a posting passes iff the lowered term occurs in its
lowered title, description, company or location; the "Python backend"
posting is kept for term "python" and dropped for location criterion
"NYC". -/
theorem search_term_semantics :
    (∀ (p : Internship) (term : String), term ≠ "" →
      (matchesFilters { neutralFilters with searchTerm := term } p = true ↔
        (jsIncludes (lowerStr p.title) (lowerStr term) ||
         jsIncludes (lowerStr p.description) (lowerStr term) ||
         jsIncludes (lowerStr p.company) (lowerStr term) ||
         jsIncludes (lowerStr p.location) (lowerStr term)) = true)) ∧
    filteredInternships [posting1] { neutralFilters with searchTerm := "python" }
      = [posting1] ∧
    filteredInternships [posting1] { neutralFilters with location := "NYC" } = [] := by
  refine ⟨?_, by decide, by decide⟩
  intro p term hne
  simp [matchesFilters, matchesSearch, neutralFilters, hne]

/-- C5 witness: the predicate equivalence applied to the scenario posting
and the term "python". -/
theorem search_term_semantics_witness :
    matchesFilters { neutralFilters with searchTerm := "python" } posting1 = true :=
  (search_term_semantics.1 posting1 "python" (by decide)).mpr (by decide)

/-- C6: the filter's output is a sublist (subsequence) of its input, so
the original relative order is preserved; freedom from mutation is
inherent in the purely functional embedding. -/
theorem filter_output_sublist (ps : List Internship) (c : FilterState) :
    List.Sublist (filteredInternships ps c) ps :=
  List.filter_sublist ps

/-- C7: the filter is idempotent for any fixed criteria. -/
theorem filter_idempotent (ps : List Internship) (c : FilterState) :
    filteredInternships (filteredInternships ps c) c = filteredInternships ps c := by
  simp [filteredInternships, List.filter_filter]

/-- C8: monotonicity.  Appending a posting to the input only appends its
match (if any) to the output; every previously matching posting is still
in the output. -/
theorem filter_monotone_append (ps : List Internship) (q : Internship) (c : FilterState) :
    filteredInternships (ps ++ [q]) c
      = filteredInternships ps c ++ filteredInternships [q] c ∧
    ∀ x : Internship,
      x ∈ filteredInternships ps c → x ∈ filteredInternships (ps ++ [q]) c := by
  have happ : filteredInternships (ps ++ [q]) c
      = filteredInternships ps c ++ filteredInternships [q] c := by
    simp [filteredInternships, List.filter_append]
  exact ⟨happ, fun x hx => happ ▸ List.mem_append_left _ hx⟩

/-- C8 witness: a prior match survives the addition of a posting. -/
theorem filter_monotone_append_witness :
    posting1 ∈ filteredInternships [posting1, postingUnpaid] neutralFilters :=
  (filter_monotone_append [posting1] postingUnpaid neutralFilters).2 posting1 (by decide)

/-- C9: totality and neutral unknowns.  A non-empty salary-bucket value
outside the fixed enumeration excludes no posting (the `switch` falls
through), and the empty input list yields the empty output; the filter is
a total function by construction. -/
theorem filter_totality_edge_cases :
    (∀ (salaryRange : String) (salaryField : Option String),
      salaryRange ≠ "paid" → salaryRange ≠ "unpaid" →
      salaryRange ≠ "competitive" → salaryRange ≠ "hourly" →
      salaryRangeMatches salaryRange salaryField = true) ∧
    (∀ c : FilterState, filteredInternships [] c = []) := by
  constructor
  · intro sr sf h1 h2 h3 h4
    simp [salaryRangeMatches, h1, h2, h3, h4]
  · intro c; rfl

/-- C9 witness: the unknown bucket "stipend" keeps a posting, and the
empty input gives the empty output. -/
theorem filter_totality_edge_cases_witness :
    salaryRangeMatches "stipend" (some "$25/hr") = true ∧
    filteredInternships [] neutralFilters = [] :=
  ⟨filter_totality_edge_cases.1 "stipend" (some "$25/hr")
      (by decide) (by decide) (by decide) (by decide),
   filter_totality_edge_cases.2 neutralFilters⟩

/-- C10 counterexample: the salary "volunteer" satisfies the `unpaid`
bucket but not the `paid` bucket, so the unpaid bucket is not contained
in the paid bucket. -/
theorem bucket_containment_counterexample :
    salaryRangeMatches "unpaid" (some "volunteer") = true ∧
    salaryRangeMatches "paid" (some "volunteer") = false := by
  decide

/-- C10 amended: the `competitive` and `hourly` buckets are contained in
the `paid` bucket, and any salary whose lowered text contains "unpaid"
satisfies the `paid` bucket (because "unpaid" contains "paid"); only the
"volunteer" arm of the `unpaid` bucket escapes the containment. -/
theorem bucket_containment_amended (salaryField : Option String) :
    (salaryRangeMatches "competitive" salaryField = true →
      salaryRangeMatches "paid" salaryField = true) ∧
    (salaryRangeMatches "hourly" salaryField = true →
      salaryRangeMatches "paid" salaryField = true) ∧
    (jsIncludes (lowerStr (salaryField.getD "")) "unpaid" = true →
      salaryRangeMatches "paid" salaryField = true) := by
  cases salaryField with
  | none => decide
  | some s =>
    refine ⟨fun h => ?_, fun h => ?_, fun h => ?_⟩
    · have h' : jsIncludes (lowerStr s) "competitive" = true := h
      show (jsIncludes (lowerStr s) "paid" || jsIncludes (lowerStr s) "$" ||
        jsIncludes (lowerStr s) "hourly" || jsIncludes (lowerStr s) "competitive") = true
      simp [h']
    · have h' : (jsIncludes (lowerStr s) "hourly" || jsIncludes (lowerStr s) "$") = true := h
      show (jsIncludes (lowerStr s) "paid" || jsIncludes (lowerStr s) "$" ||
        jsIncludes (lowerStr s) "hourly" || jsIncludes (lowerStr s) "competitive") = true
      rcases (by simpa using h' :
          jsIncludes (lowerStr s) "hourly" = true ∨ jsIncludes (lowerStr s) "$" = true)
        with h'' | h'' <;> simp [h'']
    · have hsub : "paid".data <:+: "unpaid".data := (infixOfB_iff _ _).mp (by decide)
      have h' : "unpaid".data <:+: (lowerStr s).data := (infixOfB_iff _ _).mp h
      have hp : jsIncludes (lowerStr s) "paid" = true :=
        (infixOfB_iff _ _).mpr (hsub.trans h')
      show (jsIncludes (lowerStr s) "paid" || jsIncludes (lowerStr s) "$" ||
        jsIncludes (lowerStr s) "hourly" || jsIncludes (lowerStr s) "competitive") = true
      simp [hp]

/-- C10 witness: the amended containment applied to the salary
"Unpaid". -/
theorem bucket_containment_amended_witness :
    salaryRangeMatches "paid" (some "Unpaid") = true :=
  (bucket_containment_amended (some "Unpaid")).2.2 (by decide)

end InternshipApp
